import Mathlib

/-!
Verification of the HypnoS NNUE evaluation core (src/nnue/evaluate_nnue.cpp)
against its natural-language specification.

The C++ code is shallowly embedded: machine `int` values become `Int` (the
quantities involved are small enough that no overflow is reachable on the
claims considered), C++ integer division (which truncates toward zero) becomes
`Int.tdiv`, global mutable state becomes explicit state records threaded
through the functions, and the binary parameter streams become lists of bytes
with `Option`-valued readers (a `none` models the C++ stream entering the
failed state).
-/

namespace Hypnos

/-- Truncating division, matching C++ signed integer division. -/
def cdiv (a b : Int) : Int := Int.tdiv a b

/-- Embedding of std::clamp(v, lo, hi): lo if v < lo, hi if hi < v, else v. -/
def stdClamp (v lo hi : Int) : Int := if v < lo then lo else if hi < v then hi else v

/-! ## Evaluation Blender (evaluate_nnue.cpp lines 585-599)

Source:
  static const int scaleFactor = 1024 * OutputScale;
  if (adjusted) {
      const int materialWeight = 1024 - delta + StrategyMaterialWeight;
      const int positionalWeight = 1024 + delta + StrategyPositionalWeight;
      return (materialWeight * psqt + positionalWeight * positional) / scaleFactor;
  } else
      return (psqt + positional) / OutputScale;

OutputScale is a compile-time constant defined in a header that is not among
the given sources, so the embedding takes it as an explicit parameter, exactly
as the specification states the formulas symbolically in OutputScale.
The two process-wide strategy weights are likewise explicit parameters. -/

def evaluate (OutputScale SMW SPW : Int) (psqt positional delta : Int) (adjusted : Bool) : Int :=
  let scaleFactor := 1024 * OutputScale
  if adjusted then
    let materialWeight := 1024 - delta + SMW
    let positionalWeight := 1024 + delta + SPW
    cdiv (materialWeight * psqt + positionalWeight * positional) scaleFactor
  else
    cdiv (psqt + positional) OutputScale

/-! ## Strategy weight globals and commit path (lines 108-123, 191-273, 374-394) -/

/-- The two process-wide strategy weights
(int StrategyMaterialWeight, int StrategyPositionalWeight). -/
structure StratGlobals where
  SMW : Int
  SPW : Int
  deriving DecidableEq, Repr

/-- The thread-local dedup state of commit_strategy_weights
(gLastCommittedMaterialWeight, gLastCommittedPositionalWeight). -/
structure CommitLocals where
  lastM : Int
  lastP : Int
  deriving DecidableEq, Repr

/-- Embedding of commit_strategy_weights (lines 116-123):
  if (materialW == gLastCommittedMaterialWeight && positionalW == gLastCommittedPositionalWeight)
      return;
  StrategyMaterialWeight   = materialW;
  StrategyPositionalWeight = positionalW;
  gLastCommittedMaterialWeight  = materialW;
  gLastCommittedPositionalWeight = positionalW;
The globals may hold arbitrary values (another thread can have overwritten
them); the dedup test consults only the thread-local pair. -/
def commit_strategy_weights (materialW positionalW : Int) (g : StratGlobals) (l : CommitLocals) :
    StratGlobals × CommitLocals :=
  if materialW = l.lastM ∧ positionalW = l.lastP then (g, l)
  else (⟨materialW, positionalW⟩, ⟨materialW, positionalW⟩)

/-- Truncation of a rational toward zero, the behavior of static_cast<int>
applied to a C++ floating-point value.  The floating-point arithmetic of the
source (small integer ratios) is modelled by exact rational arithmetic. -/
def truncQ (q : ℚ) : Int := Int.tdiv q.num q.den

/-- Embedding of apply_dynamic_blend (lines 192-207):
  StrategyMaterialWeight = std::clamp(
      int(25*tal/100.0 + 10*cap/100.0 + 0*pet/100.0), 5, 30);
  StrategyPositionalWeight = std::clamp(
      int(5*tal/100.0 + 15*cap/100.0 + 25*pet/100.0), 5, 30);
Writes the two globals directly (no dedup). -/
def apply_dynamic_blend (talWeight petrosianWeight capablancaWeight : Int) : StratGlobals :=
  let minWeight : Int := 5
  let maxWeight : Int := 30
  let m := truncQ (25 * talWeight / 100 + 10 * capablancaWeight / 100 + 0 * petrosianWeight / 100)
  let p := truncQ (5 * talWeight / 100 + 15 * capablancaWeight / 100 + 25 * petrosianWeight / 100)
  ⟨stdClamp m minWeight maxWeight, stdClamp p minWeight maxWeight⟩

/-- The three engine styles of adjust_nnue_for_style. -/
inductive Style where
  | Tal
  | Petrosian
  | Capablanca
  deriving DecidableEq, Repr

/-- Embedding of adjust_nnue_for_style (lines 374-394): bumps or resets the
two globals, clamping the bumped values to [5,30]. -/
def adjust_nnue_for_style (currentStyle : Style) (g : StratGlobals) : StratGlobals :=
  let minWeight : Int := 5
  let maxWeight : Int := 30
  match currentStyle with
  | Style.Tal =>
      ⟨stdClamp (g.SMW + 5) minWeight maxWeight, stdClamp (g.SPW - 5) minWeight maxWeight⟩
  | Style.Petrosian =>
      ⟨stdClamp (g.SMW - 5) minWeight maxWeight, stdClamp (g.SPW + 5) minWeight maxWeight⟩
  | Style.Capablanca =>
      ⟨(15 : Int), (15 : Int)⟩

/-- Thread-local fast-path state of update_weights
(lastPhase, lastTalWeight, lastPetrosianWeight, lastCapablancaWeight). -/
structure UWLocals where
  lastPhase : Int
  lastTal : Int
  lastPet : Int
  lastCap : Int
  deriving DecidableEq, Repr

/-- Embedding of update_weights (lines 210-273).  The two configuration
toggles (Eval::style_is_enabled(), Options[NNUE ManualWeights]) are explicit
booleans; the positional indicators computed at line 235 are discarded by the
source ((void)indicators) and therefore do not appear.  The function reads the
three style weights but never writes them; per phase it computes the new pair
and routes it through commit_strategy_weights, then records the fast-path
state.  Note: the committed values are NOT clamped anywhere on this path. -/
def update_weights (styleEnabled manualWeights : Bool) (phase : Int)
    (talWeight petrosianWeight capablancaWeight : Int)
    (g : StratGlobals) (l : CommitLocals) (u : UWLocals) :
    StratGlobals × CommitLocals × UWLocals :=
  if ¬styleEnabled then (g, l, u)
  else if manualWeights then (g, l, u)
  else if phase = u.lastPhase ∧ talWeight = u.lastTal ∧ petrosianWeight = u.lastPet ∧
          capablancaWeight = u.lastCap then (g, l, u)
  else
    let pair : Option (Int × Int) :=
      if phase = 0 then
        some (cdiv (talWeight * 2 + petrosianWeight) 3,
              cdiv (capablancaWeight * 2 + petrosianWeight) 3)
      else if phase = 1 then
        some (cdiv (talWeight + petrosianWeight + capablancaWeight) 3,
              cdiv (talWeight + petrosianWeight + capablancaWeight) 3)
      else if phase = 2 then
        some (cdiv (petrosianWeight * 2 + capablancaWeight) 3,
              cdiv (capablancaWeight * 2 + talWeight) 3)
      else none
    match pair with
    | none => (g, l, u)
    | some (newMaterialWeight, newPositionalWeight) =>
        let gl := commit_strategy_weights newMaterialWeight newPositionalWeight g l
        (gl.1, gl.2, ⟨phase, talWeight, petrosianWeight, capablancaWeight⟩)

/-! ## Phase Detector (lines 125-189) -/

/-- Material thresholds for the game phases (lines 126-127). -/
def thresholdForEndgame : Int := 1300

def thresholdForMiddlegame : Int := 2000

/-- Candidate phase from remaining material (lines 159-166):
0 = opening (default), 1 = middlegame, 2 = endgame. -/
def phase_of_material (remainingMaterial : Int) : Nat :=
  if remainingMaterial ≤ thresholdForEndgame then 2
  else if remainingMaterial ≤ thresholdForMiddlegame then 1
  else 0

/-- Thread-local state of determine_dynamic_phase
(stablePhase, stabilityCounter, phaseChangeCooldown), initialized {0, 0, 0}. -/
structure PhaseState where
  stablePhase : Nat
  stabilityCounter : Nat
  cooldown : Nat
  deriving DecidableEq, Repr

/-- Initial thread-local detector state (stablePhase 0, counter 0, cooldown 0). -/
def initPhaseState : PhaseState := ⟨0, 0, 0⟩

/-- Transition of determine_dynamic_phase on a candidate phase (lines 168-189):
  if (cooldown > 0 && current != stable) { --cooldown; return stable; }
  if (current != stable) {
      ++counter;
      if (counter >= 3) { stable = current; counter = 0; cooldown = 4; }
  } else { counter = 0; if (cooldown > 0) --cooldown; }
  return stable;
Returns the new state and the reported phase. -/
def phaseStep (current : Nat) (st : PhaseState) : PhaseState × Nat :=
  if 0 < st.cooldown ∧ current ≠ st.stablePhase then
    ({ st with cooldown := st.cooldown - 1 }, st.stablePhase)
  else if current ≠ st.stablePhase then
    let counter := st.stabilityCounter + 1
    if 3 ≤ counter then
      (⟨current, 0, 4⟩, current)
    else
      ({ st with stabilityCounter := counter }, st.stablePhase)
  else
    ({ st with stabilityCounter := 0,
               cooldown := if 0 < st.cooldown then st.cooldown - 1 else st.cooldown },
     st.stablePhase)

/-- Embedding of determine_dynamic_phase (lines 147-189).  The board-material
computation calculate_material(pos) is abstracted by the integer material
input; the candidate phase and the hysteresis step are as in the source. -/
def determine_dynamic_phase (remainingMaterial : Int) (st : PhaseState) : PhaseState × Nat :=
  phaseStep (phase_of_material remainingMaterial) st

/-- Sequence of detector calls on a list of material observations, reporting
the phase returned by each call. -/
def runDetector (st : PhaseState) : List Int → PhaseState × List Nat
  | [] => (st, [])
  | m :: ms =>
      let r := determine_dynamic_phase m st
      let rest := runDetector r.1 ms
      (rest.1, r.2 :: rest.2)

/-- Alternating candidate sequence x, y, x, y, ... of length n. -/
def altFrom (x y : Nat) : Nat → List Nat
  | 0 => []
  | n + 1 => x :: altFrom y x n

/-- Detector run on a list of candidate phases (material already classified). -/
def runPhaseStep (st : PhaseState) : List Nat → PhaseState × List Nat
  | [] => (st, [])
  | c :: cs =>
      let r := phaseStep c st
      let rest := runPhaseStep r.1 cs
      (rest.1, r.2 :: rest.2)

/-! ## Style blend step 4 phase factor and step 5 normalization (lines 324-364) -/

/-- Embedding of line 327 of update_weights_with_blend:
  const float phaseFactor = dynamicPhase / 100.0f; // 0=endgame, 1=opening
The float arithmetic is modelled by exact rational arithmetic; for
dynamicPhase in {0, 1, 2} the two agree on everything the claims need (the
float value of 1/100.0f differs from the rational by less than 1e-9). -/
def phaseFactor (dynamicPhase : Int) : ℚ := dynamicPhase / 100

/-- Embedding of lines 329-331: the indicator targets blended by phaseFactor;
the second argument of each pair is the opening-side indicator (kingSafety,
centerControl, pieceActivity respectively). -/
def blendTarget (dynamicPhase : Int) (endgameSide openingSide : Int) : Int :=
  truncQ ((1 - phaseFactor dynamicPhase) * endgameSide + phaseFactor dynamicPhase * openingSide)

/-- Embedding of the style-weight normalization, lines 350-364 of
update_weights_with_blend:
  tal = clamp(tal, 0, 100); pet = clamp(pet, 0, 100); cap = clamp(cap, 0, 100);
  total = tal + pet + cap;
  if (total > 0 && total != 100) {
      newTal = (tal * 100 + total/2) / total;
      newPet = (pet * 100 + total/2) / total;
      newCap = clamp(100 - (newTal + newPet), 0, 100);
      tal = newTal; pet = newPet; cap = newCap;
  }
Returns (talWeight, petrosianWeight, capablancaWeight). -/
def normalize_weights (talWeight petrosianWeight capablancaWeight : Int) : Int × Int × Int :=
  let t := stdClamp talWeight 0 100
  let p := stdClamp petrosianWeight 0 100
  let c := stdClamp capablancaWeight 0 100
  let total := t + p + c
  if 0 < total ∧ total ≠ 100 then
    let newTal := cdiv (t * 100 + cdiv total 2) total
    let newPet := cdiv (p * 100 + cdiv total 2) total
    let sumFirstTwo := newTal + newPet
    let newCap := stdClamp (100 - sumFirstTwo) 0 100
    (newTal, newPet, newCap)
  else
    (t, p, c)

/-! ## Parameter Store & Serializer (lines 53-63, 410-530, 791-837)

An input stream is a list of bytes; a read that would run past the end of the
list returns none, modelling the C++ stream entering the failed state (every
subsequent check of the stream then reports failure, which is exactly what the
Option bind gives).  All integers are little-endian as in the source helpers
read_little_endian / write_little_endian. -/

/-- Value of a little-endian byte list. -/
def leVal : List Nat → Nat
  | [] => 0
  | b :: bs => b + 256 * leVal bs

/-- Little-endian encoding of v in n bytes (low byte first). -/
def leBytes : Nat → Nat → List Nat
  | 0, _ => []
  | n + 1, v => v % 256 :: leBytes n (v / 256)

/-- Four-byte little-endian encoding of a u32 value. -/
def le32 (v : Nat) : List Nat := leBytes 4 v

/-- Reads n raw bytes; fails when the stream is exhausted first. -/
def readBytes (n : Nat) (s : List Nat) : Option (List Nat × List Nat) :=
  if n ≤ s.length then some (s.take n, s.drop n) else none

/-- Embedding of read_le<uint32_t> / read_little_endian<uint32_t> (lines 53-58). -/
def readU32 (s : List Nat) : Option (Nat × List Nat) :=
  match readBytes 4 s with
  | some (bs, r) => some (leVal bs, r)
  | none => none

/-- Compile-time constants of the binary format for one net size: the expected
format version, the expected whole-net hash HashValue[netSize], the expected
section hashes of the feature-transformer and sub-network types, the byte
sizes of the two parameter-block kinds, and the number of sub-network
sections.  All of these are constants declared in headers not among the given
sources, so the embedding carries them as parameters. -/
structure NetFormat where
  version : Nat
  netHash : Nat
  ftHash : Nat
  subHash : Nat
  ftBytes : Nat
  subBytes : Nat
  layerStacks : Nat
  deriving DecidableEq, Repr

/-- In-memory parameter content for one net size: the free-text description
and the raw parameter bytes of the feature-transformer block and of each
per-bucket sub-network block. -/
structure ParamsStore where
  desc : List Nat
  ftData : List Nat
  subData : List (List Nat)
  deriving DecidableEq, Repr

/-- Embedding of read_header (lines 469-480): reads version, hash and
description-length u32 fields, rejects on stream failure or version mismatch,
then reads the description bytes.  Returns the header hash, the description
and the rest of the stream. -/
def read_header (F : NetFormat) (s : List Nat) : Option (Nat × List Nat × List Nat) :=
  match readU32 s with
  | none => none
  | some (version, s1) =>
    match readU32 s1 with
    | none => none
    | some (hashValue, s2) =>
      match readU32 s2 with
      | none => none
      | some (size, s3) =>
        if version ≠ F.version then none
        else
          match readBytes size s3 with
          | none => none
          | some (desc, s4) => some (hashValue, desc, s4)

/-- Embedding of Detail::read_parameters (lines 430-438) for one section:
reads the leading hash u32, rejects on stream failure or hash mismatch, then
reads the section body.  The body reader T::read_parameters is in a source
file not among the given ones; modelled from the spec: each block is a
fixed-size run of parameter bytes for its type, read entirely, failing when
the stream is exhausted before the expected size.  Returns the body bytes and
the rest of the stream. -/
def readSection (expectedHash bodyLen : Nat) (s : List Nat) : Option (List Nat × List Nat) :=
  match readU32 s with
  | none => none
  | some (header, s1) =>
    if header ≠ expectedHash then none
    else readBytes bodyLen s1

/-- Reads k consecutive sub-network sections (the loop at lines 503-509),
collecting their bodies. -/
def readSections (expectedHash bodyLen : Nat) : Nat → List Nat → Option (List (List Nat) × List Nat)
  | 0, s => some ([], s)
  | k + 1, s =>
    match readSection expectedHash bodyLen s with
    | none => none
    | some (b, s1) =>
      match readSections expectedHash bodyLen k s1 with
      | none => none
      | some (bs, s2) => some (b :: bs, s2)

/-- Embedding of read_parameters (lines 492-511): header, whole-net hash
check, feature-transformer section, one sub-network section per layer stack,
and the final requirement stream && stream.peek() == eof, i.e. success exactly
when the stream is consumed to its end.  Returns the loaded parameter store on
success and none on failure (the boolean result of the C++ function is
success = (result ≠ none)). -/
def read_parameters (F : NetFormat) (s : List Nat) : Option ParamsStore :=
  match read_header F s with
  | none => none
  | some (hashValue, desc, s1) =>
    if hashValue ≠ F.netHash then none
    else
      match readSection F.ftHash F.ftBytes s1 with
      | none => none
      | some (ftData, s2) =>
        match readSections F.subHash F.subBytes F.layerStacks s2 with
        | none => none
        | some (subData, s3) =>
          if s3.isEmpty then some ⟨desc, ftData, subData⟩ else none

/-- Boolean load result of read_parameters, the value returned to load_eval. -/
def load_ok (F : NetFormat) (s : List Nat) : Bool := (read_parameters F s).isSome

/-- Serialized image of a parameter store in the format F: the exact stream
layout of section 6 of the spec (version, hash, description length,
description, then each section as its hash followed by its body). -/
def encodeNet (F : NetFormat) (P : ParamsStore) : List Nat :=
  le32 F.version ++ le32 F.netHash ++ le32 P.desc.length ++ P.desc ++
  le32 F.ftHash ++ P.ftData ++
  (P.subData.map (fun b => le32 F.subHash ++ b)).flatten

/-- Well-formedness of a parameter store with respect to a format: the block
sizes match the fixed compile-time sizes and the description length fits its
u32 field. -/
def WF (F : NetFormat) (P : ParamsStore) : Prop :=
  P.ftData.length = F.ftBytes ∧
  P.subData.length = F.layerStacks ∧
  (∀ b ∈ P.subData, b.length = F.subBytes) ∧
  P.desc.length < 2 ^ 32

instance (F : NetFormat) (P : ParamsStore) : Decidable (WF F P) := by
  unfold WF; infer_instance

/-! ### Output streams and the save path (lines 441-446, 483-530, 800-806)

An output stream carries the bytes written so far, a good/failed flag and a
count of primitive write operations performed.  I/O errors are injected by a
fault oracle: the n-th primitive write succeeds iff the oracle grants index n.
Once failed, a stream stays failed and writes no further bytes, as with
std::ostream. -/

structure OStream where
  buf : List Nat
  ok : Bool
  idx : Nat
  deriving DecidableEq, Repr

/-- One primitive write of a run of bytes under fault oracle f. -/
def writeOp (f : Nat → Bool) (bs : List Nat) (s : OStream) : OStream :=
  if s.ok ∧ f s.idx then ⟨s.buf ++ bs, true, s.idx + 1⟩
  else ⟨s.buf, false, s.idx + 1⟩

/-- Embedding of write_header (lines 483-489): writes version, hash and
description length as u32 and then the description bytes; returns
!stream.fail(). -/
def write_header (f : Nat → Bool) (F : NetFormat) (desc : List Nat) (s : OStream) :
    OStream × Bool :=
  let s1 := writeOp f (le32 F.version) s
  let s2 := writeOp f (le32 F.netHash) s1
  let s3 := writeOp f (le32 (desc.length % 2 ^ 32)) s2
  let s4 := writeOp f desc s3
  (s4, s4.ok)

/-- Embedding of Detail::write_parameters (lines 441-446) for one section:
writes the type's hash u32 and then the block bytes.  The body writer
T::write_parameters is in a source file not among the given ones; modelled
from the spec: it writes the block's parameter bytes and reports the stream
state. -/
def write_section (f : Nat → Bool) (hash : Nat) (body : List Nat) (s : OStream) :
    OStream × Bool :=
  let s1 := writeOp f (le32 hash) s
  let s2 := writeOp f body s1
  (s2, s2.ok)

/-- Writes the per-bucket sub-network sections in order, stopping at the first
failed section as the loop at lines 522-528 does. -/
def write_sections (f : Nat → Bool) (hash : Nat) : List (List Nat) → OStream → OStream × Bool
  | [], s => (s, true)
  | b :: bs, s =>
    let r := write_section f hash b s
    if r.2 then write_sections f hash bs r.1 else (r.1, false)

/-- Embedding of write_parameters (lines 514-530): header, feature-transformer
section, one section per layer stack, then return bool(stream). -/
def write_parameters (f : Nat → Bool) (F : NetFormat) (P : ParamsStore) (s : OStream) :
    OStream × Bool :=
  let h := write_header f F P.desc s
  if ¬h.2 then (h.1, false)
  else
    let ft := write_section f F.ftHash P.ftData h.1
    if ¬ft.2 then (ft.1, false)
    else
      let subs := write_sections f F.subHash P.subData ft.1
      if ¬subs.2 then (subs.1, false)
      else (subs.1, subs.1.ok)

/-- Embedding of save_eval(stream, netSize) (lines 800-806):
  if (fileName[netSize].empty()) return false;
  return write_parameters(stream, netSize);
The recorded file name (set by any prior load_eval) is carried explicitly. -/
def save_eval (fileName : List Char) (f : Nat → Bool) (F : NetFormat) (P : ParamsStore)
    (s : OStream) : OStream × Bool :=
  if fileName.isEmpty then (s, false)
  else write_parameters f F P s

/-! ## Material bucket (lines 568 and 632) -/

/-- Modelled from the spec: the fixed number of per-bucket sub-networks
(LayerStacks) is declared in a network-architecture header that is not among
the given sources.  The spec fixes the bucket formula (total pieces - 1) / 4
and requires the bucket to index the layer stacks for every possible piece
count; a chess position holds between 2 and 32 pieces, so the buckets are
0..7 and the fixed number of layer stacks is 8 (the source's static_assert at
line 605 further equates LayerStacks with PSQTBuckets). -/
def LayerStacks : Nat := 8

/-- Embedding of the bucket selection at lines 568 and 632:
  const int bucket = (pos.count<ALL_PIECES>() - 1) / 4;
with the total piece count abstracted as the integer input. -/
def material_bucket (pieceCount : Int) : Int := cdiv (pieceCount - 1) 4

/-- Concrete tiny format used by the witnesses: version 1, net hash 2,
feature-transformer hash 3, sub-network hash 4, one-byte blocks, one bucket. -/
def F0 : NetFormat := ⟨1, 2, 3, 4, 1, 1, 1⟩

/-- Concrete tiny parameter store used by the witnesses. -/
def P0 : ParamsStore := ⟨[], [9], [[7]]⟩

/-! ## Helper lemmas on the little-endian byte layer -/

theorem leBytes_length (n v : Nat) : (leBytes n v).length = n := by
  induction n generalizing v with
  | zero => rfl
  | succ k ih => simp [leBytes, ih]

theorem leBytes_lt (n v : Nat) : ∀ b ∈ leBytes n v, b < 256 := by
  induction n generalizing v with
  | zero => simp [leBytes]
  | succ k ih =>
    simp only [leBytes, List.mem_cons]
    rintro b (rfl | hb)
    · exact Nat.mod_lt _ (by norm_num)
    · exact ih _ _ hb

theorem leVal_leBytes (n v : Nat) (h : v < 256 ^ n) : leVal (leBytes n v) = v := by
  induction n generalizing v with
  | zero =>
    simp only [pow_zero, Nat.lt_one_iff] at h
    simp [leBytes, leVal, h]
  | succ k ih =>
    have hd : v / 256 < 256 ^ k := by
      rw [Nat.div_lt_iff_lt_mul (by norm_num : (0:Nat) < 256)]
      rw [pow_succ] at h
      exact h
    simp only [leBytes, leVal, ih (v / 256) hd]
    exact Nat.mod_add_div v 256

theorem leBytes_leVal : ∀ (bs : List Nat), (∀ b ∈ bs, b < 256) →
    leBytes bs.length (leVal bs) = bs := by
  intro bs
  induction bs with
  | nil => intro _; rfl
  | cons b rest ih =>
    intro h
    have hb : b < 256 := h b (by simp)
    have hrest : ∀ x ∈ rest, x < 256 := fun x hx => h x (List.mem_cons_of_mem _ hx)
    simp only [List.length_cons, leBytes, leVal]
    have h1 : (b + 256 * leVal rest) % 256 = b := by
      rw [Nat.add_mul_mod_self_left, Nat.mod_eq_of_lt hb]
    have h2 : (b + 256 * leVal rest) / 256 = leVal rest := by
      rw [Nat.add_mul_div_left _ _ (by norm_num : (0:Nat) < 256),
          Nat.div_eq_of_lt hb, Nat.zero_add]
    rw [h1, h2, ih hrest]

theorem leVal_lt : ∀ (bs : List Nat), (∀ b ∈ bs, b < 256) → leVal bs < 256 ^ bs.length := by
  intro bs
  induction bs with
  | nil => intro _; simp [leVal]
  | cons b rest ih =>
    intro h
    have hb : b < 256 := h b (by simp)
    have hrest := ih (fun x hx => h x (List.mem_cons_of_mem _ hx))
    simp only [leVal, List.length_cons, pow_succ]
    calc b + 256 * leVal rest < 256 + 256 * leVal rest := by omega
      _ = 256 * (leVal rest + 1) := by ring
      _ ≤ 256 * 256 ^ rest.length := by
          have : leVal rest + 1 ≤ 256 ^ rest.length := hrest
          exact Nat.mul_le_mul_left _ this
      _ = 256 ^ rest.length * 256 := by ring

theorem le32_length (v : Nat) : (le32 v).length = 4 := leBytes_length 4 v

theorem le32_lt (v : Nat) : ∀ b ∈ le32 v, b < 256 := leBytes_lt 4 v

theorem leVal_le32 (v : Nat) (h : v < 2 ^ 32) : leVal (le32 v) = v :=
  leVal_leBytes 4 v (by norm_num at h ⊢; omega)

/-! ## Reader inversion and encoding lemmas -/

theorem readBytes_eq_some {n : Nat} {s bs r : List Nat} :
    readBytes n s = some (bs, r) ↔ s = bs ++ r ∧ bs.length = n := by
  constructor
  · intro h
    unfold readBytes at h
    split at h
    · injection h with h'
      injection h' with h1 h2
      subst h1; subst h2
      refine ⟨(List.take_append_drop n s).symm, ?_⟩
      simpa [List.length_take] using (by omega : min n s.length = n)
    · exact absurd h (by simp)
  · rintro ⟨rfl, rfl⟩
    unfold readBytes
    rw [if_pos (by simp)]
    rw [List.take_left, List.drop_left]

theorem readU32_encode (v : Nat) (hv : v < 2 ^ 32) (r : List Nat) :
    readU32 (le32 v ++ r) = some (v, r) := by
  unfold readU32
  rw [(readBytes_eq_some).2 ⟨rfl, le32_length v⟩]
  simp [leVal_le32 v hv]

theorem readU32_eq_some {s r : List Nat} {v : Nat} (hbytes : ∀ b ∈ s, b < 256)
    (h : readU32 s = some (v, r)) :
    s = le32 v ++ r ∧ v < 2 ^ 32 ∧ (∀ b ∈ r, b < 256) := by
  unfold readU32 at h
  cases hb : readBytes 4 s with
  | none => rw [hb] at h; cases h
  | some p =>
    obtain ⟨bs, r0⟩ := p
    rw [hb] at h
    injection h with h'
    injection h' with h1 h2
    subst h1; subst h2
    obtain ⟨rfl, hlen⟩ := readBytes_eq_some.1 hb
    have hbs : ∀ b ∈ bs, b < 256 := fun b hx => hbytes b (List.mem_append_left _ hx)
    have henc : le32 (leVal bs) = bs := by
      have := leBytes_leVal bs hbs
      rw [hlen] at this
      exact this
    refine ⟨by rw [henc], ?_, fun b hx => hbytes b (List.mem_append_right _ hx)⟩
    have := leVal_lt bs hbs
    rw [hlen] at this
    norm_num at this ⊢
    omega

theorem readSection_encode (hash n : Nat) (hh : hash < 2 ^ 32) (body r : List Nat)
    (hlen : body.length = n) :
    readSection hash n (le32 hash ++ (body ++ r)) = some (body, r) := by
  unfold readSection
  rw [readU32_encode hash hh]
  simp [readBytes_eq_some.2 ⟨rfl, hlen⟩]

theorem readSection_eq_some {hash n : Nat} {s b r : List Nat} (hbytes : ∀ x ∈ s, x < 256)
    (h : readSection hash n s = some (b, r)) :
    s = le32 hash ++ b ++ r ∧ b.length = n ∧ hash < 2 ^ 32 ∧ (∀ x ∈ r, x < 256) := by
  unfold readSection at h
  cases hu : readU32 s with
  | none => rw [hu] at h; cases h
  | some p =>
    obtain ⟨hv, s1⟩ := p
    rw [hu] at h
    dsimp only at h
    by_cases he : hv = hash
    · subst he
      rw [if_neg (by simp)] at h
      obtain ⟨rfl, hlen⟩ := readBytes_eq_some.1 h
      obtain ⟨hs, hlt, hval1⟩ := readU32_eq_some hbytes hu
      exact ⟨by rw [hs, List.append_assoc], hlen, hlt,
             fun x hx => hval1 x (List.mem_append_right _ hx)⟩
    · rw [if_pos (by simpa using he)] at h
      cases h

theorem readSections_encode (hash n : Nat) (hh : hash < 2 ^ 32) :
    ∀ (bodies : List (List Nat)) (r : List Nat),
      (∀ b ∈ bodies, b.length = n) →
      readSections hash n bodies.length
          ((bodies.map (fun b => le32 hash ++ b)).flatten ++ r) = some (bodies, r) := by
  intro bodies
  induction bodies with
  | nil => intro r _; rfl
  | cons b bs ih =>
    intro r hlen
    have hb : b.length = n := hlen b (by simp)
    have hshape : ((b :: bs).map (fun x => le32 hash ++ x)).flatten ++ r =
        le32 hash ++ (b ++ ((bs.map (fun x => le32 hash ++ x)).flatten ++ r)) := by
      simp [List.append_assoc]
    rw [List.length_cons, hshape]
    unfold readSections
    rw [readSection_encode hash n hh b _ hb]
    dsimp only
    rw [ih r (fun x hx => hlen x (List.mem_cons_of_mem _ hx))]

theorem readSections_eq_some {hash n : Nat} :
    ∀ {k : Nat} {s r : List Nat} {bodies : List (List Nat)},
      (∀ x ∈ s, x < 256) →
      readSections hash n k s = some (bodies, r) →
      s = (bodies.map (fun b => le32 hash ++ b)).flatten ++ r ∧
        bodies.length = k ∧ (∀ b ∈ bodies, b.length = n) ∧ (∀ x ∈ r, x < 256) := by
  intro k
  induction k with
  | zero =>
    intro s r bodies hbytes h
    unfold readSections at h
    injection h with h'
    injection h' with h1 h2
    subst h1; subst h2
    simpa using hbytes
  | succ m ih =>
    intro s r bodies hbytes h
    unfold readSections at h
    cases hsec : readSection hash n s with
    | none => rw [hsec] at h; cases h
    | some p =>
      obtain ⟨b, s1⟩ := p
      rw [hsec] at h
      dsimp only at h
      cases hrest : readSections hash n m s1 with
      | none => rw [hrest] at h; cases h
      | some q =>
        obtain ⟨bs, s2⟩ := q
        rw [hrest] at h
        injection h with h'
        injection h' with h1 h2
        subst h1; subst h2
        obtain ⟨hs, hlen, _, hval1⟩ := readSection_eq_some hbytes hsec
        obtain ⟨hs1, hlenbs, hall, hval2⟩ := ih hval1 hrest
        refine ⟨?_, by simp [hlenbs], ?_, hval2⟩
        · rw [hs, hs1]
          simp [List.append_assoc]
        · intro x hx
          rcases List.mem_cons.1 hx with rfl | hx'
          · exact hlen
          · exact hall x hx'

theorem read_header_encode (F : NetFormat) (hashv : Nat) (hv : F.version < 2 ^ 32)
    (hh : hashv < 2 ^ 32) (desc r : List Nat) (hd : desc.length < 2 ^ 32) :
    read_header F (le32 F.version ++ (le32 hashv ++ (le32 desc.length ++ (desc ++ r)))) =
      some (hashv, desc, r) := by
  unfold read_header
  rw [readU32_encode F.version hv]
  dsimp only
  rw [readU32_encode hashv hh]
  dsimp only
  rw [readU32_encode desc.length hd]
  dsimp only
  rw [if_neg (by simp : ¬F.version ≠ F.version)]
  rw [readBytes_eq_some.2 ⟨rfl, rfl⟩]

theorem read_header_eq_some {F : NetFormat} {s : List Nat} {hashv : Nat} {desc r : List Nat}
    (hbytes : ∀ x ∈ s, x < 256) (h : read_header F s = some (hashv, desc, r)) :
    s = le32 F.version ++ (le32 hashv ++ (le32 desc.length ++ (desc ++ r))) ∧
      F.version < 2 ^ 32 ∧ hashv < 2 ^ 32 ∧ desc.length < 2 ^ 32 ∧ (∀ x ∈ r, x < 256) := by
  unfold read_header at h
  cases h1 : readU32 s with
  | none => rw [h1] at h; cases h
  | some p1 =>
    obtain ⟨version, s1⟩ := p1
    rw [h1] at h
    dsimp only at h
    cases h2 : readU32 s1 with
    | none => rw [h2] at h; cases h
    | some p2 =>
      obtain ⟨hv0, s2⟩ := p2
      rw [h2] at h
      dsimp only at h
      cases h3 : readU32 s2 with
      | none => rw [h3] at h; cases h
      | some p3 =>
        obtain ⟨size, s3⟩ := p3
        rw [h3] at h
        dsimp only at h
        by_cases hver : version = F.version
        · subst hver
          rw [if_neg (by simp)] at h
          cases h4 : readBytes size s3 with
          | none => rw [h4] at h; cases h
          | some p4 =>
            obtain ⟨d, s4⟩ := p4
            rw [h4] at h
            dsimp only at h
            injection h with h'
            injection h' with ha hb
            subst ha
            injection hb with hb1 hb2
            subst hb1; subst hb2
            obtain ⟨e1, b1, v1⟩ := readU32_eq_some hbytes h1
            obtain ⟨e2, b2, v2⟩ := readU32_eq_some v1 h2
            obtain ⟨e3, b3, v3⟩ := readU32_eq_some v2 h3
            obtain ⟨e4, hdlen⟩ := readBytes_eq_some.1 h4
            subst hdlen
            refine ⟨?_, b1, b2, b3, fun x hx => v3 x (by rw [e4] at *; exact List.mem_append_right _ hx)⟩
            rw [e1, e2, e3, e4]
        · rw [if_pos (by simpa using hver)] at h
          cases h

theorem read_parameters_encode (F : NetFormat) (P : ParamsStore)
    (hv : F.version < 2 ^ 32) (hn : F.netHash < 2 ^ 32) (hf : F.ftHash < 2 ^ 32)
    (hs : F.subHash < 2 ^ 32) (hwf : WF F P) :
    read_parameters F (encodeNet F P) = some P := by
  obtain ⟨hft, hsubLen, hsubAll, hd⟩ := hwf
  unfold read_parameters encodeNet
  have hshape : le32 F.version ++ le32 F.netHash ++ le32 P.desc.length ++ P.desc ++
      le32 F.ftHash ++ P.ftData ++ (P.subData.map (fun b => le32 F.subHash ++ b)).flatten =
      le32 F.version ++ (le32 F.netHash ++ (le32 P.desc.length ++ (P.desc ++
        (le32 F.ftHash ++ (P.ftData ++
          ((P.subData.map (fun b => le32 F.subHash ++ b)).flatten ++ [])))))) := by
    simp [List.append_assoc]
  rw [hshape, read_header_encode F F.netHash hv hn P.desc _ hd]
  dsimp only
  rw [if_neg (by simp : ¬F.netHash ≠ F.netHash)]
  rw [readSection_encode F.ftHash F.ftBytes hf P.ftData _ hft]
  dsimp only
  rw [← hsubLen, readSections_encode F.subHash F.subBytes hs P.subData [] hsubAll]
  rfl

theorem read_parameters_sound {F : NetFormat} {s : List Nat} {P : ParamsStore}
    (hbytes : ∀ x ∈ s, x < 256) (h : read_parameters F s = some P) :
    s = encodeNet F P ∧ WF F P := by
  unfold read_parameters at h
  cases h1 : read_header F s with
  | none => rw [h1] at h; cases h
  | some p1 =>
    obtain ⟨hashValue, desc, s1⟩ := p1
    rw [h1] at h
    dsimp only at h
    by_cases hhv : hashValue = F.netHash
    · subst hhv
      rw [if_neg (by simp)] at h
      cases h2 : readSection F.ftHash F.ftBytes s1 with
      | none => rw [h2] at h; cases h
      | some p2 =>
        obtain ⟨ftData, s2⟩ := p2
        rw [h2] at h
        dsimp only at h
        cases h3 : readSections F.subHash F.subBytes F.layerStacks s2 with
        | none => rw [h3] at h; cases h
        | some p3 =>
          obtain ⟨subData, s3⟩ := p3
          rw [h3] at h
          dsimp only at h
          by_cases hemp : s3.isEmpty
          · rw [if_pos hemp] at h
            injection h with h'
            subst h'
            have hs3 : s3 = [] := List.isEmpty_iff.1 hemp
            obtain ⟨e1, bv, bh, bd, v1⟩ := read_header_eq_some hbytes h1
            obtain ⟨e2, hftlen, _, v2⟩ := readSection_eq_some v1 h2
            obtain ⟨e3, hsublen, hsuball, _⟩ := readSections_eq_some v2 h3
            constructor
            · rw [e1, e2, e3, hs3]
              unfold encodeNet
              simp [List.append_assoc]
            · exact ⟨hftlen, hsublen, hsuball, bd⟩
          · rw [if_neg hemp] at h
            cases h
    · rw [if_pos (by simpa using hhv)] at h
      cases h

/-! ## Helper lemmas on the write path -/

theorem writeOp_all {f : Nat → Bool} (hf : ∀ n, f n = true) (bs : List Nat) (s : OStream)
    (hok : s.ok = true) : writeOp f bs s = ⟨s.buf ++ bs, true, s.idx + 1⟩ := by
  unfold writeOp
  rw [if_pos ⟨hok, hf s.idx⟩]

theorem write_header_all {f : Nat → Bool} (hf : ∀ n, f n = true) (F : NetFormat)
    (desc : List Nat) (s : OStream) (hok : s.ok = true) :
    (write_header f F desc s).2 = true ∧ (write_header f F desc s).1.ok = true ∧
    (write_header f F desc s).1.buf =
      s.buf ++ (le32 F.version ++ le32 F.netHash ++ le32 (desc.length % 2 ^ 32) ++ desc) := by
  unfold write_header
  dsimp only
  rw [writeOp_all hf (le32 F.version) s hok]
  rw [writeOp_all hf (le32 F.netHash) _ rfl]
  rw [writeOp_all hf (le32 (desc.length % 2 ^ 32)) _ rfl]
  rw [writeOp_all hf desc _ rfl]
  refine ⟨rfl, rfl, ?_⟩
  simp [List.append_assoc]

theorem write_section_all {f : Nat → Bool} (hf : ∀ n, f n = true) (hash : Nat)
    (body : List Nat) (s : OStream) (hok : s.ok = true) :
    (write_section f hash body s).2 = true ∧ (write_section f hash body s).1.ok = true ∧
    (write_section f hash body s).1.buf = s.buf ++ (le32 hash ++ body) := by
  unfold write_section
  dsimp only
  rw [writeOp_all hf (le32 hash) s hok]
  rw [writeOp_all hf body _ rfl]
  refine ⟨rfl, rfl, ?_⟩
  simp [List.append_assoc]

theorem write_sections_all {f : Nat → Bool} (hf : ∀ n, f n = true) (hash : Nat) :
    ∀ (bodies : List (List Nat)) (s : OStream), s.ok = true →
      (write_sections f hash bodies s).2 = true ∧
      (write_sections f hash bodies s).1.ok = true ∧
      (write_sections f hash bodies s).1.buf =
        s.buf ++ (bodies.map (fun b => le32 hash ++ b)).flatten := by
  intro bodies
  induction bodies with
  | nil => intro s hok; exact ⟨rfl, hok, by simp [write_sections]⟩
  | cons b bs ih =>
    intro s hok
    obtain ⟨h2, hok1, hbuf⟩ := write_section_all hf hash b s hok
    unfold write_sections
    rw [if_pos h2]
    obtain ⟨g2, gok, gbuf⟩ := ih (write_section f hash b s).1 hok1
    refine ⟨g2, gok, ?_⟩
    rw [gbuf, hbuf]
    simp [List.append_assoc]

theorem write_parameters_all {f : Nat → Bool} (hf : ∀ n, f n = true) (F : NetFormat)
    (P : ParamsStore) (s : OStream) (hok : s.ok = true) :
    (write_parameters f F P s).2 = true ∧
    (write_parameters f F P s).1.buf =
      s.buf ++ (le32 F.version ++ le32 F.netHash ++ le32 (P.desc.length % 2 ^ 32) ++ P.desc ++
        le32 F.ftHash ++ P.ftData ++
        (P.subData.map (fun b => le32 F.subHash ++ b)).flatten) := by
  obtain ⟨h2, hok1, hbuf1⟩ := write_header_all hf F P.desc s hok
  unfold write_parameters
  dsimp only
  rw [h2, if_neg (by simp)]
  obtain ⟨f2, fok, fbuf⟩ := write_section_all hf F.ftHash P.ftData (write_header f F P.desc s).1 hok1
  rw [f2, if_neg (by simp)]
  obtain ⟨g2, gok, gbuf⟩ := write_sections_all hf F.subHash P.subData _ fok
  rw [g2, if_neg (by simp)]
  rw [gok]
  refine ⟨rfl, ?_⟩
  rw [gbuf, fbuf, hbuf1]
  simp [List.append_assoc]

/-! ## Helper lemmas on clamping and the phase detector -/

theorem stdClamp_mem (v lo hi : Int) (h : lo ≤ hi) :
    lo ≤ stdClamp v lo hi ∧ stdClamp v lo hi ≤ hi := by
  unfold stdClamp
  split_ifs <;> omega

theorem runDetector_eq (st : PhaseState) (ms : List Int) :
    runDetector st ms = runPhaseStep st (ms.map phase_of_material) := by
  induction ms generalizing st with
  | nil => rfl
  | cons m ms ih => simp [runDetector, runPhaseStep, determine_dynamic_phase, ih]

theorem phaseStep_match (c : Nat) (st : PhaseState) (h : c = st.stablePhase) :
    phaseStep c st = (⟨st.stablePhase, 0,
      if 0 < st.cooldown then st.cooldown - 1 else st.cooldown⟩, st.stablePhase) := by
  unfold phaseStep
  rw [if_neg (by simp [h]), if_neg (by simp [h])]

theorem phaseStep_cooldown (c : Nat) (st : PhaseState) (hne : c ≠ st.stablePhase)
    (hcd : 0 < st.cooldown) :
    phaseStep c st = ({ st with cooldown := st.cooldown - 1 }, st.stablePhase) := by
  unfold phaseStep
  rw [if_pos ⟨hcd, hne⟩]

theorem phaseStep_count (c : Nat) (st : PhaseState) (hne : c ≠ st.stablePhase)
    (hcd : st.cooldown = 0) (hlt : st.stabilityCounter + 1 < 3) :
    phaseStep c st = ({ st with stabilityCounter := st.stabilityCounter + 1 },
      st.stablePhase) := by
  unfold phaseStep
  rw [if_neg (by simp [hcd]), if_pos hne, if_neg (by omega)]

theorem phaseStep_commit (c : Nat) (st : PhaseState) (hne : c ≠ st.stablePhase)
    (hcd : st.cooldown = 0) (hge : 3 ≤ st.stabilityCounter + 1) :
    phaseStep c st = (⟨c, 0, 4⟩, c) := by
  unfold phaseStep
  rw [if_neg (by simp [hcd]), if_pos hne, if_pos hge]

theorem alt_run (a b : Nat) (hab : a ≠ b) :
    ∀ (n : Nat) (st : PhaseState), st.stablePhase = a →
      (((runPhaseStep st (altFrom a b n)).1.stablePhase = a ∧
        ∀ x ∈ (runPhaseStep st (altFrom a b n)).2, x = a) ∧
       (st.stabilityCounter ≤ 1 →
        (runPhaseStep st (altFrom b a n)).1.stablePhase = a ∧
        ∀ x ∈ (runPhaseStep st (altFrom b a n)).2, x = a)) := by
  intro n
  induction n with
  | zero =>
    intro st hst
    refine ⟨⟨by simpa [altFrom, runPhaseStep] using hst, by simp [altFrom, runPhaseStep]⟩,
      fun _ => ⟨by simpa [altFrom, runPhaseStep] using hst, by simp [altFrom, runPhaseStep]⟩⟩
  | succ m ih =>
    intro st hst
    constructor
    · -- sequence a :: altFrom b a m, first candidate matches the stable phase
      have hstep := phaseStep_match a st hst.symm
      have hfold : runPhaseStep st (altFrom a b (m + 1)) =
          ((runPhaseStep (phaseStep a st).1 (altFrom b a m)).1,
            (phaseStep a st).2 :: (runPhaseStep (phaseStep a st).1 (altFrom b a m)).2) := by
        rfl
      rw [hfold, hstep]
      have ih1 := (ih (⟨st.stablePhase, 0,
        if 0 < st.cooldown then st.cooldown - 1 else st.cooldown⟩) hst).2 (by simp)
      refine ⟨ih1.1, ?_⟩
      intro x hx
      rcases List.mem_cons.1 hx with rfl | hx'
      · exact hst
      · exact ih1.2 x hx'
    · -- sequence b :: altFrom a b m, first candidate differs from the stable phase
      intro hcnt
      have hne : b ≠ st.stablePhase := by rw [hst]; exact fun h => hab h.symm
      have hfold : runPhaseStep st (altFrom b a (m + 1)) =
          ((runPhaseStep (phaseStep b st).1 (altFrom a b m)).1,
            (phaseStep b st).2 :: (runPhaseStep (phaseStep b st).1 (altFrom a b m)).2) := by
        rfl
      by_cases hcd : 0 < st.cooldown
      · have hstep := phaseStep_cooldown b st hne hcd
        rw [hfold, hstep]
        have ih1 := (ih ({ st with cooldown := st.cooldown - 1 }) hst).1
        refine ⟨ih1.1, ?_⟩
        intro x hx
        rcases List.mem_cons.1 hx with rfl | hx'
        · exact hst
        · exact ih1.2 x hx'
      · have hstep := phaseStep_count b st hne (by omega) (by omega)
        rw [hfold, hstep]
        have ih1 := (ih ({ st with stabilityCounter := st.stabilityCounter + 1 }) hst).1
        refine ⟨ih1.1, ?_⟩
        intro x hx
        rcases List.mem_cons.1 hx with rfl | hx'
        · exact hst
        · exact ih1.2 x hx'

/-! ## Claim theorems -/

/-- C1: the evaluation blender computes, for every psqt and positional value,
score = ((1024 - delta + StrategyMaterialWeight) * psqt +
(1024 + delta + StrategyPositionalWeight) * positional) / (1024 * OutputScale)
when adjusted, and (psqt + positional) / OutputScale when not adjusted
(C++ truncating integer division); in particular for delta = 24,
adjusted = true, both strategy weights 0, psqt = positional = 100 the score is
(1000*100 + 1048*100) / (1024*OutputScale), and unadjusted it is
200 / OutputScale. -/
theorem C1_evaluation_blender (OutputScale SMW SPW psqt positional delta : Int) :
    (evaluate OutputScale SMW SPW psqt positional delta true =
      cdiv ((1024 - delta + SMW) * psqt + (1024 + delta + SPW) * positional)
        (1024 * OutputScale)) ∧
    (evaluate OutputScale SMW SPW psqt positional delta false =
      cdiv (psqt + positional) OutputScale) ∧
    (evaluate OutputScale 0 0 100 100 24 true =
      cdiv (1000 * 100 + 1048 * 100) (1024 * OutputScale)) ∧
    (evaluate OutputScale 0 0 100 100 24 false = cdiv 200 OutputScale) := by
  refine ⟨rfl, rfl, ?_, ?_⟩
  · unfold evaluate
    norm_num
  · unfold evaluate
    norm_num

/-- C10: commit_strategy_weights leaves the process-wide strategy weights
entirely unchanged when the argument pair equals the pair this thread last
committed (even when another thread overwrote the globals in between, i.e. for
every current value of the globals), and otherwise stores the arguments in the
globals and records them as the thread-local last-committed pair. -/
theorem C10_commit_dedup_frame (materialW positionalW : Int) (g : StratGlobals)
    (l : CommitLocals) :
    (materialW = l.lastM ∧ positionalW = l.lastP →
      commit_strategy_weights materialW positionalW g l = (g, l)) ∧
    (¬(materialW = l.lastM ∧ positionalW = l.lastP) →
      (commit_strategy_weights materialW positionalW g l).1 = ⟨materialW, positionalW⟩ ∧
      (commit_strategy_weights materialW positionalW g l).2 = ⟨materialW, positionalW⟩) := by
  constructor
  · intro h
    unfold commit_strategy_weights
    rw [if_pos h]
  · intro h
    unfold commit_strategy_weights
    rw [if_neg h]
    exact ⟨rfl, rfl⟩

/-- C10 witness: with globals overwritten to (7,8) by another thread and a
thread-local last-committed pair (10,20), committing (10,20) again leaves the
globals at (7,8); committing (11,20) stores (11,20). -/
theorem C10_witness :
    commit_strategy_weights 10 20 ⟨7, 8⟩ ⟨10, 20⟩ = (⟨7, 8⟩, ⟨10, 20⟩) ∧
    (commit_strategy_weights 11 20 ⟨7, 8⟩ ⟨10, 20⟩).1 = ⟨11, 20⟩ :=
  ⟨(C10_commit_dedup_frame 10 20 ⟨7, 8⟩ ⟨10, 20⟩).1 ⟨rfl, rfl⟩,
   ((C10_commit_dedup_frame 11 20 ⟨7, 8⟩ ⟨10, 20⟩).2 (by decide)).1⟩

/-- C8: the material bucket (pieceCount - 1) / 4 is a valid index strictly
below the number of layer stacks for every possible piece count of a chess
position (between 2 and 32 pieces, both kings always on the board). -/
theorem C8_material_bucket (pieceCount : Int) (h2 : 2 ≤ pieceCount)
    (h32 : pieceCount ≤ 32) :
    0 ≤ material_bucket pieceCount ∧ material_bucket pieceCount < (LayerStacks : Int) := by
  unfold material_bucket cdiv LayerStacks
  rw [Int.tdiv_eq_ediv (by omega) (by omega)]
  omega

/-- C8 witness: a full board of 32 pieces selects bucket 7, within the 8
layer stacks. -/
theorem C8_witness :
    (2 ≤ (32 : Int) ∧ (32 : Int) ≤ 32) ∧
    (0 ≤ material_bucket 32 ∧ material_bucket 32 < (LayerStacks : Int)) :=
  ⟨⟨by decide, by decide⟩, C8_material_bucket 32 (by decide) (by decide)⟩

/-- C3 counterexample: the phase-based update path writes an unclamped value.
With style enabled, manual weights off, phase 0 (opening) and style weights
tal = pet = cap = 100 (fast path and dedup both missing), update_weights
stores StrategyMaterialWeight = (100*2 + 100)/3 = 100, which lies outside
[5,30]; so not every write of the strategy weights is clamped to [5,30]. -/
theorem C3_counterexample :
    (update_weights true false 0 100 100 100 ⟨0, 0⟩ ⟨-9999, -9999⟩
      ⟨-1, -1, -1, -1⟩).1.SMW = 100 ∧
    ¬(5 ≤ (100 : Int) ∧ (100 : Int) ≤ 30) := by
  refine ⟨by decide, by decide⟩

/-- C3 amended: writes by apply_dynamic_blend and adjust_nnue_for_style are
always clamped to [5,30], but the phase-based path (update_weights via
commit_strategy_weights) stores the phase-blended averages verbatim without
any clamp (shown here for the opening phase), so that path can write values
outside [5,30]. -/
theorem C3_amended :
    (∀ t p c : Int,
      5 ≤ (apply_dynamic_blend t p c).SMW ∧ (apply_dynamic_blend t p c).SMW ≤ 30 ∧
      5 ≤ (apply_dynamic_blend t p c).SPW ∧ (apply_dynamic_blend t p c).SPW ≤ 30) ∧
    (∀ (sty : Style) (g : StratGlobals),
      5 ≤ (adjust_nnue_for_style sty g).SMW ∧ (adjust_nnue_for_style sty g).SMW ≤ 30 ∧
      5 ≤ (adjust_nnue_for_style sty g).SPW ∧ (adjust_nnue_for_style sty g).SPW ≤ 30) ∧
    (∀ (t p c : Int) (g : StratGlobals) (l : CommitLocals) (u : UWLocals),
      ¬((0 : Int) = u.lastPhase ∧ t = u.lastTal ∧ p = u.lastPet ∧ c = u.lastCap) →
      ¬(cdiv (t * 2 + p) 3 = l.lastM ∧ cdiv (c * 2 + p) 3 = l.lastP) →
      (update_weights true false 0 t p c g l u).1 =
        ⟨cdiv (t * 2 + p) 3, cdiv (c * 2 + p) 3⟩) := by
  refine ⟨?_, ?_, ?_⟩
  · intro t p c
    unfold apply_dynamic_blend
    dsimp only
    obtain ⟨a1, a2⟩ := stdClamp_mem
      (truncQ (25 * t / 100 + 10 * c / 100 + 0 * p / 100)) 5 30 (by norm_num)
    obtain ⟨b1, b2⟩ := stdClamp_mem
      (truncQ (5 * t / 100 + 15 * c / 100 + 25 * p / 100)) 5 30 (by norm_num)
    exact ⟨a1, a2, b1, b2⟩
  · intro sty g
    cases sty <;>
      · unfold adjust_nnue_for_style
        dsimp only
        constructor
        · first
          | exact (stdClamp_mem _ 5 30 (by norm_num)).1
          | norm_num
        · constructor
          · first
            | exact (stdClamp_mem _ 5 30 (by norm_num)).2
            | norm_num
          · constructor
            · first
              | exact (stdClamp_mem _ 5 30 (by norm_num)).1
              | norm_num
            · first
              | exact (stdClamp_mem _ 5 30 (by norm_num)).2
              | norm_num
  · intro t p c g l u hfast hdedup
    unfold update_weights
    rw [if_neg (by simp), if_neg (by simp), if_neg hfast]
    dsimp only
    rw [if_pos rfl]
    dsimp only
    unfold commit_strategy_weights
    rw [if_neg hdedup]

/-- C3 amended witness: blend writes at (0,0,0) land in [5,30]; the opening
phase update path at tal = pet = cap = 100 stores the pair (100, 100). -/
theorem C3_amended_witness :
    (5 ≤ (apply_dynamic_blend 0 0 0).SMW ∧ (apply_dynamic_blend 0 0 0).SMW ≤ 30 ∧
     5 ≤ (apply_dynamic_blend 0 0 0).SPW ∧ (apply_dynamic_blend 0 0 0).SPW ≤ 30) ∧
    (update_weights true false 0 100 100 100 ⟨0, 0⟩ ⟨-9999, -9999⟩
      ⟨-1, -1, -1, -1⟩).1 = ⟨100, 100⟩ := by
  refine ⟨C3_amended.1 0 0 0, ?_⟩
  have h := C3_amended.2.2 100 100 100 ⟨0, 0⟩ ⟨-9999, -9999⟩ ⟨-1, -1, -1, -1⟩
    (by decide) (by decide)
  rw [h]
  decide

/-- C6: the code at line 327 computes the phase-derived mixing fraction as
dynamicPhase / 100.0f, which is 0 for the opening phase (encoded 0), 1/100
for the middlegame and 1/50 for the endgame (encoded 2) — never anywhere near
running linearly from 0 at endgame to 1 at opening as the claim (and the
code's own comment on that line) state; consequently at the opening phase the
opening-side indicator receives weight 0 and the blend target collapses to
the endgame-side indicator. -/
theorem C6_phase_factor_code_bug :
    phaseFactor 0 = 0 ∧ phaseFactor 1 = 1 / 100 ∧ phaseFactor 2 = 1 / 50 ∧
    phaseFactor 0 ≠ 1 ∧ phaseFactor 2 ≠ 0 ∧
    (∀ e o : Int, blendTarget 0 e o = e) := by
  have h0 : phaseFactor 0 = 0 := by norm_num [phaseFactor]
  have h1 : phaseFactor 1 = 1 / 100 := by norm_num [phaseFactor]
  have h2 : phaseFactor 2 = 1 / 50 := by norm_num [phaseFactor]
  refine ⟨h0, h1, h2, by rw [h0]; norm_num, by rw [h2]; norm_num, ?_⟩
  intro e o
  unfold blendTarget
  rw [h0]
  norm_num
  unfold truncQ
  rw [Rat.num_intCast, Rat.den_intCast]
  norm_num

/-- C7 counterexample: at raw weights (1,1,1) (clamped sum 3, positive and
not 100) the normalization outputs (33, 33, 34): the Petrosian weight (the
second in/out parameter) receives its proportional rounding 33, while the
claimed rule — residual 100 minus the rescaled other two assigned to the
Petrosian weight — would give it 34; the residual in fact lands on the third
parameter, the Capablanca weight. -/
theorem C7_counterexample :
    normalize_weights 1 1 1 = (33, 33, 34) ∧
    stdClamp (100 - (cdiv (1 * 100 + cdiv 3 2) 3 + cdiv (1 * 100 + cdiv 3 2) 3)) 0 100 = 34 ∧
    (normalize_weights 1 1 1).2.1 ≠ 34 := by
  refine ⟨by decide, by decide, by decide⟩

/-- C7 amended: after clamping each weight to [0,100], whenever the sum is
positive and not equal to 100 the first two weights (Tal and Petrosian) are
rescaled by proportion with rounding, and the residual 100 minus the rescaled
first two, clamped to [0,100], is assigned to the third weight, which is the
Capablanca weight — the rounding error is deliberately placed on the
Capablanca weight. -/
theorem C7_amended (talWeight petrosianWeight capablancaWeight : Int)
    (hpos : 0 < stdClamp talWeight 0 100 + stdClamp petrosianWeight 0 100 +
      stdClamp capablancaWeight 0 100)
    (hne : stdClamp talWeight 0 100 + stdClamp petrosianWeight 0 100 +
      stdClamp capablancaWeight 0 100 ≠ 100) :
    normalize_weights talWeight petrosianWeight capablancaWeight =
      (cdiv (stdClamp talWeight 0 100 * 100 +
          cdiv (stdClamp talWeight 0 100 + stdClamp petrosianWeight 0 100 +
            stdClamp capablancaWeight 0 100) 2)
        (stdClamp talWeight 0 100 + stdClamp petrosianWeight 0 100 +
          stdClamp capablancaWeight 0 100),
       cdiv (stdClamp petrosianWeight 0 100 * 100 +
          cdiv (stdClamp talWeight 0 100 + stdClamp petrosianWeight 0 100 +
            stdClamp capablancaWeight 0 100) 2)
        (stdClamp talWeight 0 100 + stdClamp petrosianWeight 0 100 +
          stdClamp capablancaWeight 0 100),
       stdClamp (100 -
          (cdiv (stdClamp talWeight 0 100 * 100 +
              cdiv (stdClamp talWeight 0 100 + stdClamp petrosianWeight 0 100 +
                stdClamp capablancaWeight 0 100) 2)
            (stdClamp talWeight 0 100 + stdClamp petrosianWeight 0 100 +
              stdClamp capablancaWeight 0 100) +
           cdiv (stdClamp petrosianWeight 0 100 * 100 +
              cdiv (stdClamp talWeight 0 100 + stdClamp petrosianWeight 0 100 +
                stdClamp capablancaWeight 0 100) 2)
            (stdClamp talWeight 0 100 + stdClamp petrosianWeight 0 100 +
              stdClamp capablancaWeight 0 100))) 0 100) := by
  unfold normalize_weights
  dsimp only
  rw [if_pos ⟨hpos, hne⟩]

/-- C7 amended witness: at (1,1,1) the hypotheses hold and the normalization
yields (33, 33, 34), the residual unit landing on the Capablanca weight. -/
theorem C7_amended_witness : normalize_weights 1 1 1 = (33, 33, 34) :=
  (C7_amended 1 1 1 (by decide) (by decide)).trans (by decide)

/-- C4: the per-thread phase detector follows exactly the claimed transition
rule on every call (stated for states whose stability counter is at most 2,
an invariant preserved by every call and holding initially): an active
cooldown with a differing candidate decrements the cooldown and keeps the
stable phase; otherwise a differing candidate increments the counter, and on
the call where the counter reaches 3 the candidate is committed, the counter
resets and a 4-call cooldown is armed; a matching candidate resets the
counter and decays any positive cooldown.  Consequently 3 consecutive calls
strictly on one side of a boundary commit on the 3rd call and one call back
across the boundary right after the commit does not flip the phase. -/
theorem C4_phase_transition_rule :
    (∀ (m : Int) (st : PhaseState),
      0 < st.cooldown → phase_of_material m ≠ st.stablePhase →
      determine_dynamic_phase m st = ({ st with cooldown := st.cooldown - 1 }, st.stablePhase)) ∧
    (∀ (m : Int) (st : PhaseState),
      st.cooldown = 0 → phase_of_material m ≠ st.stablePhase → st.stabilityCounter + 1 < 3 →
      determine_dynamic_phase m st =
        ({ st with stabilityCounter := st.stabilityCounter + 1 }, st.stablePhase)) ∧
    (∀ (m : Int) (st : PhaseState),
      st.cooldown = 0 → phase_of_material m ≠ st.stablePhase → st.stabilityCounter + 1 = 3 →
      determine_dynamic_phase m st = (⟨phase_of_material m, 0, 4⟩, phase_of_material m)) ∧
    (∀ (m : Int) (st : PhaseState),
      phase_of_material m = st.stablePhase →
      determine_dynamic_phase m st =
        (⟨st.stablePhase, 0, if 0 < st.cooldown then st.cooldown - 1 else st.cooldown⟩,
         st.stablePhase)) ∧
    (∀ (m : Int) (st : PhaseState), st.stabilityCounter ≤ 2 →
      (determine_dynamic_phase m st).1.stabilityCounter ≤ 2) ∧
    (∀ (s c : Nat) (m1 m2 m3 m4 : Int) (st : PhaseState),
      phase_of_material m1 = c → phase_of_material m2 = c → phase_of_material m3 = c →
      phase_of_material m4 = s → c ≠ s →
      st.stablePhase = s → st.stabilityCounter = 0 → st.cooldown = 0 →
      (runDetector st [m1, m2, m3]).2 = [s, s, c] ∧
      (runDetector st [m1, m2, m3]).1 = ⟨c, 0, 4⟩ ∧
      (determine_dynamic_phase m4 (runDetector st [m1, m2, m3]).1).2 = c) := by
  refine ⟨?_, ?_, ?_, ?_, ?_, ?_⟩
  · intro m st hcd hne
    unfold determine_dynamic_phase
    rw [phaseStep_cooldown _ _ hne hcd]
  · intro m st hcd hne hlt
    unfold determine_dynamic_phase
    rw [phaseStep_count _ _ hne hcd hlt]
  · intro m st hcd hne heq
    unfold determine_dynamic_phase
    rw [phaseStep_commit _ _ hne hcd (by omega)]
  · intro m st heq
    unfold determine_dynamic_phase
    rw [phaseStep_match _ _ heq]
  · intro m st hle
    unfold determine_dynamic_phase
    by_cases hsame : phase_of_material m = st.stablePhase
    · rw [phaseStep_match _ _ hsame]
      simp
    · by_cases hcd : 0 < st.cooldown
      · rw [phaseStep_cooldown _ _ hsame hcd]
        simpa using hle
      · by_cases hcommit : 3 ≤ st.stabilityCounter + 1
        · rw [phaseStep_commit _ _ hsame (by omega) hcommit]
          simp
        · rw [phaseStep_count _ _ hsame (by omega) (by omega)]
          simp
          omega
  · intro s c m1 m2 m3 m4 st h1 h2 h3 h4 hcs hsp hsc hcd
    have hst : st = ⟨s, 0, 0⟩ := by
      rcases st with ⟨sp, scnt, scd⟩
      dsimp only at hsp hsc hcd
      rw [hsp, hsc, hcd]
    subst hst
    have hne : c ≠ (⟨s, 0, 0⟩ : PhaseState).stablePhase := hcs
    have e1 : determine_dynamic_phase m1 ⟨s, 0, 0⟩ = (⟨s, 1, 0⟩, s) := by
      unfold determine_dynamic_phase
      rw [h1, phaseStep_count c ⟨s, 0, 0⟩ hne rfl (by norm_num)]
    have e2 : determine_dynamic_phase m2 ⟨s, 1, 0⟩ = (⟨s, 2, 0⟩, s) := by
      unfold determine_dynamic_phase
      rw [h2, phaseStep_count c ⟨s, 1, 0⟩ hne rfl (by norm_num)]
    have e3 : determine_dynamic_phase m3 ⟨s, 2, 0⟩ = (⟨c, 0, 4⟩, c) := by
      unfold determine_dynamic_phase
      rw [h3, phaseStep_commit c ⟨s, 2, 0⟩ hne rfl (by norm_num)]
    have e4 : determine_dynamic_phase m4 ⟨c, 0, 4⟩ = (⟨c, 0, 3⟩, c) := by
      unfold determine_dynamic_phase
      rw [h4, phaseStep_cooldown s ⟨c, 0, 4⟩ (fun h => hcs h.symm) (by norm_num)]
      rfl
    have hrun : runDetector ⟨s, 0, 0⟩ [m1, m2, m3] = (⟨c, 0, 4⟩, [s, s, c]) := by
      simp [runDetector, e1, e2, e3]
    rw [hrun]
    exact ⟨rfl, rfl, by rw [e4]⟩

/-- C4 witness: from the fresh detector state (opening, counter 0, no
cooldown), three calls at material 1900 (middlegame side) report opening,
opening, middlegame — committing on the 3rd call — and an immediate call back
at material 2500 (opening side) still reports middlegame. -/
theorem C4_witness :
    (runDetector ⟨0, 0, 0⟩ [1900, 1900, 1900]).2 = [0, 0, 1] ∧
    (runDetector ⟨0, 0, 0⟩ [1900, 1900, 1900]).1 = ⟨1, 0, 4⟩ ∧
    (determine_dynamic_phase 2500 (runDetector ⟨0, 0, 0⟩ [1900, 1900, 1900]).1).2 = 1 :=
  C4_phase_transition_rule.2.2.2.2.2 0 1 1900 1900 1900 2500 ⟨0, 0, 0⟩ (by decide) (by decide)
    (by decide) (by decide) (by decide) rfl rfl rfl

/-- C5 counterexample: a material sequence oscillating across the 1300
boundary on every call (candidates 1, 2, 1 — alternating between two
different values on consecutive calls) does change the reported stable phase
when the starting stable phase (here the initial state, stable phase 0) is
neither of the two alternating candidates: the stability counter increments
on every differing candidate regardless of which one it is, reaches 3 on the
third call, and commits; the run reports [0, 0, 1] and the stable phase ends
at 1 ≠ 0. -/
theorem C5_counterexample :
    List.map phase_of_material [1900, 1200, 1900] = [1, 2, 1] ∧
    (1 : Nat) ≠ 2 ∧
    initPhaseState.stablePhase = 0 ∧
    (runDetector initPhaseState [1900, 1200, 1900]).2 = [0, 0, 1] ∧
    (runDetector initPhaseState [1900, 1200, 1900]).1.stablePhase = 1 ∧
    (1 : Nat) ≠ 0 := by
  refine ⟨by decide, by decide, rfl, by decide, by decide, by decide⟩

/-- C5 amended: for every material sequence whose candidate phases alternate
between two different values a and b on consecutive calls, and every starting
detector state whose stable phase is one of a and b and whose stability
counter is at most 1 (as in any state reached right after a commit or a
matching candidate), the reported stable phase never changes: every call
reports the starting stable phase and the final stable phase equals it. -/
theorem C5_oscillation_amended (a b n : Nat) (ms : List Int) (st : PhaseState)
    (hab : a ≠ b)
    (hstable : st.stablePhase = a ∨ st.stablePhase = b)
    (hcnt : st.stabilityCounter ≤ 1)
    (halt : ms.map phase_of_material = altFrom a b n ∨
            ms.map phase_of_material = altFrom b a n) :
    (runDetector st ms).1.stablePhase = st.stablePhase ∧
    ∀ x ∈ (runDetector st ms).2, x = st.stablePhase := by
  rw [runDetector_eq]
  rcases hstable with hA | hB
  · rcases halt with h | h
    · rw [h]
      obtain ⟨⟨g1, g2⟩, _⟩ := alt_run a b hab n st hA
      exact ⟨g1.trans hA.symm, fun x hx => (g2 x hx).trans hA.symm⟩
    · rw [h]
      obtain ⟨_, g⟩ := alt_run a b hab n st hA
      obtain ⟨g1, g2⟩ := g hcnt
      exact ⟨g1.trans hA.symm, fun x hx => (g2 x hx).trans hA.symm⟩
  · rcases halt with h | h
    · rw [h]
      obtain ⟨_, g⟩ := alt_run b a (fun x => hab x.symm) n st hB
      obtain ⟨g1, g2⟩ := g hcnt
      exact ⟨g1.trans hB.symm, fun x hx => (g2 x hx).trans hB.symm⟩
    · rw [h]
      obtain ⟨⟨g1, g2⟩, _⟩ := alt_run b a (fun x => hab x.symm) n st hB
      exact ⟨g1.trans hB.symm, fun x hx => (g2 x hx).trans hB.symm⟩

/-- C5 amended witness: from the fresh state (stable phase 0), materials
2500, 1900, 2500 have candidates 0, 1, 0 alternating between 0 and 1; the
reported phase stays 0 and the stable phase ends at 0. -/
theorem C5_amended_witness :
    (runDetector ⟨0, 0, 0⟩ [2500, 1900, 2500]).1.stablePhase = 0 ∧
    ∀ x ∈ (runDetector ⟨0, 0, 0⟩ [2500, 1900, 2500]).2, x = 0 :=
  C5_oscillation_amended 0 1 3 [2500, 1900, 2500] ⟨0, 0, 0⟩ (by decide) (Or.inl rfl)
    (by decide) (Or.inl (by decide))

/-- C2: for every input stream (a finite byte list; the embedding is total,
so no exception can escape), parameter load succeeds exactly on the
well-formed, fully-consumed streams: load returns true iff the stream is
precisely the encoding of some parameter store in the expected format —
correct version field, correct whole-net hash, correct section hash and exact
block size for the feature-transformer section and for each of the
layer-stack sub-network sections, and nothing left after the last section.
Hence a version mismatch, any section-hash mismatch, exhaustion before the
expected size, or trailing bytes each force load to return false, and load
returns true only when the stream is consumed exactly to end-of-file. -/
theorem C2_load_exact (F : NetFormat) (s : List Nat)
    (hv : F.version < 2 ^ 32) (hn : F.netHash < 2 ^ 32) (hf : F.ftHash < 2 ^ 32)
    (hs : F.subHash < 2 ^ 32) (hbytes : ∀ x ∈ s, x < 256) :
    load_ok F s = true ↔ ∃ P : ParamsStore, WF F P ∧ s = encodeNet F P := by
  unfold load_ok
  constructor
  · intro h
    cases hp : read_parameters F s with
    | none => rw [hp] at h; cases h
    | some P =>
      obtain ⟨he, hwf⟩ := read_parameters_sound hbytes hp
      exact ⟨P, hwf, he⟩
  · rintro ⟨P, hwf, rfl⟩
    rw [read_parameters_encode F P hv hn hf hs hwf]
    rfl

/-- C2 witness: for the tiny concrete format F0, loading the encoding of P0
succeeds and is characterized by the theorem; appending one trailing byte,
truncating one byte, or corrupting the version byte each make load fail. -/
theorem C2_witness :
    (load_ok F0 (encodeNet F0 P0) = true ↔
      ∃ P : ParamsStore, WF F0 P ∧ encodeNet F0 P0 = encodeNet F0 P) ∧
    load_ok F0 (encodeNet F0 P0) = true ∧
    load_ok F0 (encodeNet F0 P0 ++ [0]) = false ∧
    load_ok F0 (encodeNet F0 P0).dropLast = false ∧
    load_ok F0 (2 :: (encodeNet F0 P0).tail) = false :=
  ⟨C2_load_exact F0 (encodeNet F0 P0) (by decide) (by decide) (by decide) (by decide)
      (by decide),
   by decide, by decide, by decide, by decide⟩

/-- C9 counterexample: save_eval(stream, size) does not fail only on I/O
error: with an empty recorded file name, a good output stream and a fault
oracle under which every write operation succeeds, save_eval returns false
(without writing), even though write_parameters on the same stream succeeds. -/
theorem C9_counterexample :
    (save_eval [] (fun _ => true) F0 P0 ⟨[], true, 0⟩).2 = false ∧
    (write_parameters (fun _ => true) F0 P0 ⟨[], true, 0⟩).2 = true := by
  refine ⟨rfl, by decide⟩

/-- C9 amended: provided a file name has been recorded (non-empty, as any
prior load leaves it), save_eval writes exactly the mirror image of the load
format — the bytes appended to the stream are precisely the encoding that
read_parameters accepts — and returns true whenever every write operation on
the stream succeeds; with an empty recorded file name it returns false
regardless of the stream. -/
theorem C9_save_mirror (fileName : List Char) (f : Nat → Bool) (F : NetFormat)
    (P : ParamsStore) (s : OStream) (hname : fileName ≠ []) (hf : ∀ n, f n = true)
    (hok : s.ok = true) (hd : P.desc.length < 2 ^ 32) :
    (save_eval fileName f F P s).2 = true ∧
    (save_eval fileName f F P s).1.buf = s.buf ++ encodeNet F P ∧
    (WF F P → F.version < 2 ^ 32 → F.netHash < 2 ^ 32 → F.ftHash < 2 ^ 32 →
      F.subHash < 2 ^ 32 → load_ok F (encodeNet F P) = true) := by
  have hsave : save_eval fileName f F P s = write_parameters f F P s := by
    unfold save_eval
    rw [if_neg (by simp [hname])]
  obtain ⟨h2, hbuf⟩ := write_parameters_all hf F P s hok
  refine ⟨by rw [hsave, h2], ?_, ?_⟩
  · rw [hsave, hbuf, Nat.mod_eq_of_lt hd]
    unfold encodeNet
    simp [List.append_assoc]
  · intro hwf w1 w2 w3 w4
    unfold load_ok
    rw [read_parameters_encode F P w1 w2 w3 w4 hwf]
    rfl

/-- C9 amended witness: with recorded file name of one character, the
all-successful oracle and an empty good stream, saving (F0, P0) returns true,
writes exactly the encoding of P0, and that encoding loads back
successfully. -/
theorem C9_save_mirror_witness :
    (save_eval ['a'] (fun _ => true) F0 P0 ⟨[], true, 0⟩).2 = true ∧
    (save_eval ['a'] (fun _ => true) F0 P0 ⟨[], true, 0⟩).1.buf = [] ++ encodeNet F0 P0 ∧
    (WF F0 P0 → F0.version < 2 ^ 32 → F0.netHash < 2 ^ 32 → F0.ftHash < 2 ^ 32 →
      F0.subHash < 2 ^ 32 → load_ok F0 (encodeNet F0 P0) = true) :=
  C9_save_mirror ['a'] (fun _ => true) F0 P0 ⟨[], true, 0⟩ (by decide) (fun _ => rfl) rfl
    (by decide)

end Hypnos
